import Mathlib

/-!
Shallow embedding of `src/main.py` from harora/CDAL: the REINFORCE training
loop of `main()` (lines 61-159).  Python float values are modelled as exact
rationals extended with a NaN element whose propagation follows IEEE/Python
semantics (arithmetic with NaN yields NaN, every comparison with NaN is
False).  The collaborators that are not part of `src/` (the DSN model in
`models.py`, `compute_reward` in `rewards.py`, the torch sampler and the Adam
optimizer) appear as oracle inputs: the per-epoch probability vector and each
per-episode sampled (log-probability mean, reward, pick indices) triple are
inputs to the loop, and the optimizer step is an arbitrary function supplied
in the configuration.  File writes are modelled as an association list keyed
by file name key, with write-mode (overwrite) semantics; the side-effecting
statements of the loop additionally emit an event trace so that ordering and
multiplicity claims (one optimizer step per epoch, one record write per
epoch, reward computation reached) can be stated.
-/

namespace CDAL

/-- A Python float: an exact rational, or NaN.  NaN stands for any non-finite
value produced by a collaborator; arithmetic propagates it and comparisons
with it are false, as in Python. -/
inductive PyF where
  | fin : ℚ → PyF
  | nan : PyF
deriving DecidableEq, Repr

namespace PyF

/-- Python `+` on floats; NaN propagates. -/
def add : PyF → PyF → PyF
  | fin a, fin b => fin (a + b)
  | _, _ => nan

/-- Python `-` on floats; NaN propagates. -/
def sub : PyF → PyF → PyF
  | fin a, fin b => fin (a - b)
  | _, _ => nan

/-- Python `*` on floats; NaN propagates. -/
def mul : PyF → PyF → PyF
  | fin a, fin b => fin (a * b)
  | _, _ => nan

/-- Python `/` on floats; NaN propagates, and division by zero is modelled
as NaN (it only occurs here for the mean of an empty list, where numpy
indeed produces NaN). -/
def div : PyF → PyF → PyF
  | fin a, fin b => if b = 0 then nan else fin (a / b)
  | _, _ => nan

/-- Python `>` on floats: any comparison involving NaN is False. -/
def gt : PyF → PyF → Bool
  | fin a, fin b => decide (b < a)
  | _, _ => false

/-- Whether the value is finite. -/
def isFinite : PyF → Bool
  | fin _ => true
  | nan => false

/-- Sum of a list of Python floats (left fold from 0, as numpy/torch do). -/
def sum (l : List PyF) : PyF := l.foldl add (fin 0)

/-- `np.mean` / `Tensor.mean`: sum divided by length; the mean of an empty
list is NaN (the numpy behaviour for `np.mean([])`). -/
def mean (l : List PyF) : PyF := (sum l).div (fin (l.length : ℚ))

end PyF

/-- Policy parameters are a black box to `main.py` (the DSN weights live in
`models.py`, outside `src/`); an abstract token type suffices. -/
abbrev Params := ℤ

/-- The torch outputs of one episode of the inner loop (main.py lines
131-133): `log_probs.mean()`, the scalar reward returned by
`compute_reward`, and the pick indices it returns. -/
structure Episode where
  logProbMean : PyF
  reward : PyF
  pick_idxs : List ℕ
deriving DecidableEq, Repr

/-- The stochastic data consumed by one iteration of the epoch loop: the
probability vector `probs = model(seq)` (one entry per sequence position)
and the `num_episode` episode outcomes. -/
structure EpochData where
  probs : List PyF
  episodes : List Episode
deriving DecidableEq, Repr

/-- The configuration and external inputs of `main()`: the CLI arguments the
loop reads, the sorted glob of feature-file paths, the freshly initialized
DSN parameters, the parameters stored in the checkpoint named by `--resume`,
and the (external, torch-implemented) Adam step as a function of the current
parameters and the epoch cost. -/
structure Config where
  resume : String
  beta : ℚ
  start_idx : ℕ
  number_of_picks : ℤ
  fpaths : List String
  initParams : Params
  checkpointParams : Params
  optimStep : Params → PyF → Params

/-- The mutable state of the training run: the model parameters, the
baseline scalar (line 115), the running best reward and best pick indices
(lines 116-117), and the contents of the `selection/` output directory
(an association list file-key ↦ lines; cleared at run start by lines
119-120). -/
structure TrainState where
  params : Params
  baseline : PyF
  best_reward : PyF
  best_pi : List ℕ
  selectionDir : List (ℕ × List String)
deriving DecidableEq, Repr

/-- Observable events of the loop body, tagged with the epoch index:
the probability computation `model(seq)` (line 126), each call of
`compute_reward` with the pick count it receives (line 133), the optimizer
step (lines 141-143), and the selection-record write with the file key and
the lines written (lines 146-149). -/
inductive Event where
  | probsComputed (epoch : ℕ)
  | computeRewardCall (epoch episodeIdx : ℕ) (picks : ℤ)
  | optStep (epoch : ℕ)
  | recordWrite (epoch : ℕ) (key : ℕ) (lines : List String)
deriving DecidableEq, Repr

/-- Writing a file in write mode: the new contents replace any prior entry
under the same key. -/
def writeFile (fs : List (ℕ × List String)) (k : ℕ) (lines : List String) :
    List (ℕ × List String) :=
  (k, lines) :: fs.filter (fun p => p.1 != k)

/-- Accumulator of the inner episode loop (main.py lines 129-139): the
running best pair, the epoch cost, and the collected `epis_rewards`. -/
structure EpAcc where
  best_reward : PyF
  best_pi : List ℕ
  cost : PyF
  epis_rewards : List PyF
deriving DecidableEq, Repr

/-- One episode of the inner loop (lines 131-139): update the best pair on
strict improvement (`if reward > best_reward`), subtract
`log_probs.mean() * (reward - baseline)` from the cost, and append the
reward to `epis_rewards`.  `baseline` is the run-level baseline, unchanged
during the epoch. -/
def episodeBody (baseline : PyF) (acc : EpAcc) (ep : Episode) : EpAcc :=
  let acc1 := if ep.reward.gt acc.best_reward then
    { acc with best_reward := ep.reward, best_pi := ep.pick_idxs }
  else acc
  { acc1 with
    cost := acc1.cost.sub (ep.logProbMean.mul (ep.reward.sub baseline)),
    epis_rewards := acc1.epis_rewards ++ [ep.reward] }

/-- Result of one iteration of the epoch loop: the new training state, the
final accumulated epoch cost (the value `cost.backward()` receives), and
the events emitted. -/
structure EpochResult where
  state : TrainState
  cost : PyF
  events : List Event

/-- One iteration of the epoch loop (main.py lines 122-149):
`cost = beta * (probs.mean() - 0.5)**2`; the episode loop; then exactly one
optimizer step on the accumulated cost; then
`baseline = 0.9 * baseline + 0.1 * np.mean(epis_rewards)`; then the
current best pick indices are written, one `fpaths[start+idx]` per line,
to the file keyed by `start`, overwriting it. -/
def epochStep (cfg : Config) (epoch : ℕ) (s : TrainState) (d : EpochData) :
    EpochResult :=
  let cost0 := (PyF.fin cfg.beta).mul
    (((PyF.mean d.probs).sub (PyF.fin (1/2))).mul
     ((PyF.mean d.probs).sub (PyF.fin (1/2))))
  let acc := d.episodes.foldl (episodeBody s.baseline)
    ⟨s.best_reward, s.best_pi, cost0, []⟩
  let lines := acc.best_pi.map (fun idx => cfg.fpaths.getD (cfg.start_idx + idx) "")
  { state :=
      { params := cfg.optimStep s.params acc.cost,
        baseline := ((PyF.fin (9/10)).mul s.baseline).add
          ((PyF.fin (1/10)).mul (PyF.mean acc.epis_rewards)),
        best_reward := acc.best_reward,
        best_pi := acc.best_pi,
        selectionDir := writeFile s.selectionDir cfg.start_idx lines },
    cost := acc.cost,
    events := Event.probsComputed epoch ::
      ((List.range d.episodes.length).map
        (fun j => Event.computeRewardCall epoch j cfg.number_of_picks) ++
       [Event.optStep epoch, Event.recordWrite epoch cfg.start_idx lines]) }

/-- The epoch loop `for epoch in range(start_epoch, args.max_epoch)`: the
list of `EpochData` supplies the stochastic torch outputs of the successive
iterations (its length plays `max_epoch - start_epoch`). -/
def runEpochs (cfg : Config) : ℕ → TrainState → List EpochData →
    TrainState × List Event
  | _, s, [] => (s, [])
  | e, s, d :: ds =>
    let r := epochStep cfg e s d
    let rest := runEpochs cfg (e + 1) r.state ds
    (rest.1, r.events ++ rest.2)

/-- The state established before the epoch loop (main.py lines 94-120):
parameters come from `torch.load`/`load_state_dict` when `--resume` is
non-empty and from fresh initialization otherwise; `baseline = 0.`,
`best_reward = 0.0`, `best_pi = []` unconditionally; the `selection/`
directory is cleared. -/
def setupState (cfg : Config) : TrainState :=
  { params := if cfg.resume = "" then cfg.initParams else cfg.checkpointParams,
    baseline := PyF.fin 0,
    best_reward := PyF.fin 0,
    best_pi := [],
    selectionDir := [] }

/-- `start_epoch` is assigned (to 0) only in the `else` branch of
`if args.resume:` (main.py lines 101-106): it is bound exactly when the
resume path is empty. -/
def startEpochVar (cfg : Config) : Option ℕ :=
  if cfg.resume = "" then some 0 else none

/-- The whole of `main()` after setup: evaluating
`range(start_epoch, args.max_epoch)` at line 122 raises
`UnboundLocalError` when `start_epoch` was never assigned (resume case);
otherwise the epoch loop runs to completion. -/
def mainRun (cfg : Config) (data : List EpochData) :
    Except String (TrainState × List Event) :=
  match startEpochVar cfg with
  | none => .error "UnboundLocalError: start_epoch referenced before assignment"
  | some e => .ok (runEpochs cfg e (setupState cfg) data)

/-- The events a run emits; a run aborted at line 122 emitted none (the
failure happens in the `range` expression, before any loop iteration). -/
def runEvents (cfg : Config) (data : List EpochData) : List Event :=
  match mainRun cfg data with
  | .error _ => []
  | .ok (_, evs) => evs

/-- Is this event an optimizer step? -/
def Event.isOptStep : Event → Bool
  | .optStep _ => true
  | _ => false

/-- Is this event the optimizer step of epoch `e`? -/
def Event.isOptStepAt (e : ℕ) : Event → Bool
  | .optStep e2 => e2 == e
  | _ => false

/-- Is this event a call of `compute_reward`? -/
def Event.isRewardCall : Event → Bool
  | .computeRewardCall _ _ _ => true
  | _ => false

/-- Is this event the selection-record write of epoch `e`? -/
def Event.isRecordWriteAt (e : ℕ) : Event → Bool
  | .recordWrite e2 _ _ => e2 == e
  | _ => false

/-- The epoch an event is tagged with. -/
def Event.epochOf : Event → ℕ
  | .probsComputed e => e
  | .computeRewardCall e _ _ => e
  | .optStep e => e
  | .recordWrite e _ _ => e

/-- An episode triple given by rational (finite) values. -/
def mkEp (x : ℚ × ℚ × List ℕ) : Episode :=
  ⟨PyF.fin x.1, PyF.fin x.2.1, x.2.2⟩

/-- One step of the baseline moving average (main.py line 144). -/
def emaStep (b r : PyF) : PyF :=
  ((PyF.fin (9/10)).mul b).add ((PyF.fin (1/10)).mul r)

/-- The exponential moving average of a reward sequence, decay 0.9,
starting from 0. -/
def ema (rs : List PyF) : PyF := rs.foldl emaStep (PyF.fin 0)

/-- The mean episode reward of one epoch (`np.mean(epis_rewards)`). -/
def epochMeanReward (d : EpochData) : PyF :=
  PyF.mean (d.episodes.map Episode.reward)

/-- A sample configuration with an empty resume path. -/
def cfg0 : Config :=
  { resume := "", beta := 1, start_idx := 0, number_of_picks := 2,
    fpaths := ["f0", "f1", "f2"], initParams := 0, checkpointParams := 7,
    optimStep := fun p _ => p + 1 }

/-- The sample configuration with a resume path supplied. -/
def cfgR : Config := { cfg0 with resume := "checkpoint.pth.tar" }

/-- The sample configuration with pick count 0 (out of range). -/
def cfg7 : Config := { cfg0 with number_of_picks := 0 }

/-- A sample episode with a finite positive reward. -/
def ep1 : Episode := ⟨PyF.fin (-1), PyF.fin (1/2), [0, 2]⟩

/-- A sample episode whose reward is non-finite (NaN). -/
def epNan : Episode := ⟨PyF.fin (-1), PyF.nan, [1]⟩

/-- A sample episode with a negative reward. -/
def epNeg : Episode := ⟨PyF.fin (-1), PyF.fin (-1/2), [1]⟩

/-- A sample episode with reward exactly zero. -/
def epZero : Episode := ⟨PyF.fin (-2), PyF.fin 0, [2]⟩

/-- A sample epoch with one ordinary episode. -/
def d1 : EpochData := ⟨[PyF.fin (1/2), PyF.fin (1/4)], [ep1]⟩

/-- A sample epoch whose single episode has a NaN reward. -/
def dNan : EpochData := ⟨[PyF.fin (1/2)], [epNan]⟩

/-- A two-epoch run whose first epoch produces a NaN reward. -/
def c6data : List EpochData := [dNan, d1]

/-- A one-epoch run with one ordinary episode. -/
def c7data : List EpochData := [d1]

/-- A one-epoch run in which every episode reward is at most zero. -/
def c10data : List EpochData := [⟨[PyF.fin (1/2)], [epNeg, epZero]⟩]

/-- Sample probability values for an epoch. -/
def w1ps : List ℚ := [1/2, 1/4]

/-- Sample finite episode data (log-prob mean, reward, pick indices). -/
def w1eps : List (ℚ × ℚ × List ℕ) := [(-1, 1/2, [0, 2]), (-2, 0, [1])]

/-- The sample epoch assembled from `w1ps` and `w1eps`. -/
def w1d : EpochData := ⟨w1ps.map PyF.fin, w1eps.map mkEp⟩

/-- A sample training state with a nonzero baseline. -/
def st1 : TrainState :=
  { params := 0, baseline := PyF.fin (1/4), best_reward := PyF.fin 0,
    best_pi := [], selectionDir := [] }

/-- A sample episode accumulator whose best reward is 1/2. -/
def acc3 : EpAcc := ⟨PyF.fin (1/2), [0], PyF.fin 0, []⟩

/-- A sample episode whose reward ties the best reward of `acc3`. -/
def epEq : Episode := ⟨PyF.fin (-1), PyF.fin (1/2), [2]⟩

/-- Non-decreasing order on modelled floats: equal, or both finite and
ordered.  (NaN never compares below anything, matching the fact that the
best reward of the code can only move upward among finite values or stay put.) -/
def PyF.wle (a b : PyF) : Prop :=
  a = b ∨ ∃ x y, a = PyF.fin x ∧ b = PyF.fin y ∧ x ≤ y

lemma PyF.wle_refl (a : PyF) : PyF.wle a a := Or.inl rfl

lemma PyF.wle_trans {a b c : PyF} (h1 : PyF.wle a b) (h2 : PyF.wle b c) :
    PyF.wle a c := by
  rcases h1 with rfl | ⟨x, y, rfl, rfl, hxy⟩
  · exact h2
  · rcases h2 with rfl | ⟨x2, y2, he, rfl, hy⟩
    · exact Or.inr ⟨x, y, rfl, rfl, hxy⟩
    · injection he with h3
      subst h3
      exact Or.inr ⟨x, y2, rfl, rfl, le_trans hxy hy⟩

lemma pyf_sum_map_fin_aux (ps : List ℚ) :
    ∀ c : ℚ, (ps.map PyF.fin).foldl PyF.add (PyF.fin c) = PyF.fin (c + ps.sum) := by
  induction ps with
  | nil => intro c; simp [List.foldl]
  | cons p ps ih =>
    intro c
    simp only [List.map_cons, List.foldl_cons, PyF.add, List.sum_cons]
    rw [ih]
    ring_nf

lemma pyf_sum_map_fin (ps : List ℚ) :
    PyF.sum (ps.map PyF.fin) = PyF.fin ps.sum := by
  simpa using pyf_sum_map_fin_aux ps 0

lemma pyf_mean_map_fin (ps : List ℚ) (h : ps ≠ []) :
    PyF.mean (ps.map PyF.fin) = PyF.fin (ps.sum / ps.length) := by
  have hn : ps.length ≠ 0 := by simpa using h
  have hl : ((ps.length : ℚ)) ≠ 0 := Nat.cast_ne_zero.mpr hn
  simp [PyF.mean, pyf_sum_map_fin, PyF.div, hl]

lemma episodeBody_cost (b : PyF) (acc : EpAcc) (ep : Episode) :
    (episodeBody b acc ep).cost =
      acc.cost.sub (ep.logProbMean.mul (ep.reward.sub b)) := by
  by_cases hc : ep.reward.gt acc.best_reward <;> simp [episodeBody, hc]

lemma episodeBody_epis (b : PyF) (acc : EpAcc) (ep : Episode) :
    (episodeBody b acc ep).epis_rewards = acc.epis_rewards ++ [ep.reward] := by
  by_cases hc : ep.reward.gt acc.best_reward <;> simp [episodeBody, hc]

lemma episodeBody_best (b : PyF) (acc : EpAcc) (ep : Episode) :
    (episodeBody b acc ep).best_reward =
      (if ep.reward.gt acc.best_reward then ep.reward else acc.best_reward) ∧
    (episodeBody b acc ep).best_pi =
      (if ep.reward.gt acc.best_reward then ep.pick_idxs else acc.best_pi) := by
  by_cases hc : ep.reward.gt acc.best_reward <;> simp [episodeBody, hc]

lemma foldl_episodeBody_cost (b : ℚ) (l : List (ℚ × ℚ × List ℕ)) :
    ∀ (acc : EpAcc) (c : ℚ), acc.cost = PyF.fin c →
      ((l.map mkEp).foldl (episodeBody (PyF.fin b)) acc).cost =
        PyF.fin (c - (l.map (fun x => x.1 * (x.2.1 - b))).sum) := by
  induction l with
  | nil => intro acc c h; simpa using h
  | cons x xs ih =>
    intro acc c h
    simp only [List.map_cons, List.foldl_cons, List.sum_cons]
    have hstep : (episodeBody (PyF.fin b) acc (mkEp x)).cost =
        PyF.fin (c - x.1 * (x.2.1 - b)) := by
      rw [episodeBody_cost, h]
      simp [mkEp, PyF.sub, PyF.mul]
    rw [ih (episodeBody (PyF.fin b) acc (mkEp x)) (c - x.1 * (x.2.1 - b)) hstep]
    congr 1
    ring

lemma foldl_episodeBody_epis (b : PyF) (eps : List Episode) :
    ∀ acc : EpAcc, (eps.foldl (episodeBody b) acc).epis_rewards =
      acc.epis_rewards ++ eps.map Episode.reward := by
  induction eps with
  | nil => intro acc; simp
  | cons e es ih =>
    intro acc
    simp only [List.foldl_cons, List.map_cons]
    rw [ih, episodeBody_epis]
    simp

lemma episodeBody_best_wle (b : PyF) (acc : EpAcc) (ep : Episode) :
    PyF.wle acc.best_reward (episodeBody b acc ep).best_reward := by
  rcases episodeBody_best b acc ep with ⟨h1, _⟩
  rw [h1]
  by_cases hc : ep.reward.gt acc.best_reward
  · rw [if_pos hc]
    cases hr : ep.reward with
    | nan => rw [hr] at hc; simp [PyF.gt] at hc
    | fin r =>
      cases hb : acc.best_reward with
      | nan => rw [hr, hb] at hc; simp [PyF.gt] at hc
      | fin q =>
        rw [hr, hb] at hc
        simp only [PyF.gt, decide_eq_true_eq] at hc
        exact Or.inr ⟨q, r, rfl, rfl, le_of_lt hc⟩
  · rw [if_neg hc]
    exact PyF.wle_refl _

lemma foldl_episodeBody_best_wle (b : PyF) (eps : List Episode) :
    ∀ acc : EpAcc, PyF.wle acc.best_reward
      ((eps.foldl (episodeBody b) acc)).best_reward := by
  induction eps with
  | nil => intro acc; exact PyF.wle_refl _
  | cons e es ih =>
    intro acc
    exact PyF.wle_trans (episodeBody_best_wle b acc e)
      (ih (episodeBody b acc e))

lemma epochStep_baseline (cfg : Config) (epoch : ℕ) (s : TrainState)
    (d : EpochData) :
    (epochStep cfg epoch s d).state.baseline =
      emaStep s.baseline (epochMeanReward d) := by
  simp only [epochStep, emaStep, epochMeanReward]
  rw [foldl_episodeBody_epis]
  simp

lemma epochStep_best_wle (cfg : Config) (epoch : ℕ) (s : TrainState)
    (d : EpochData) :
    PyF.wle s.best_reward (epochStep cfg epoch s d).state.best_reward := by
  simpa only [epochStep] using
    foldl_episodeBody_best_wle s.baseline d.episodes
      ⟨s.best_reward, s.best_pi, _, []⟩

lemma runEpochs_baseline (cfg : Config) (ds : List EpochData) :
    ∀ (e : ℕ) (s : TrainState),
      (runEpochs cfg e s ds).1.baseline =
        (ds.map epochMeanReward).foldl emaStep s.baseline := by
  induction ds with
  | nil => intro e s; simp [runEpochs]
  | cons d ds ih =>
    intro e s
    simp only [runEpochs, List.map_cons, List.foldl_cons]
    rw [ih, epochStep_baseline]

lemma runEpochs_best_wle (cfg : Config) (ds : List EpochData) :
    ∀ (e : ℕ) (s : TrainState),
      PyF.wle s.best_reward (runEpochs cfg e s ds).1.best_reward := by
  induction ds with
  | nil => intro e s; exact PyF.wle_refl _
  | cons d ds ih =>
    intro e s
    exact PyF.wle_trans (epochStep_best_wle cfg e s d)
      (ih (e + 1) (epochStep cfg e s d).state)

lemma filter_rewardCalls_none (p : Event → Bool)
    (hp : ∀ epoch j picks, p (Event.computeRewardCall epoch j picks) = false)
    (epoch : ℕ) (picks : ℤ) (l : List ℕ) :
    (l.map (fun j => Event.computeRewardCall epoch j picks)).filter p = [] := by
  induction l with
  | nil => simp
  | cons a as ih => simp [hp, ih]

lemma epochStep_filter_optAt (cfg : Config) (epoch : ℕ) (s : TrainState)
    (d : EpochData) (e2 : ℕ) :
    (((epochStep cfg epoch s d).events).filter (Event.isOptStepAt e2)).length =
      if e2 = epoch then 1 else 0 := by
  simp only [epochStep, List.filter_cons, List.filter_append]
  rw [filter_rewardCalls_none (Event.isOptStepAt e2) (fun _ _ _ => rfl)]
  by_cases h : e2 = epoch
  · subst h; simp [Event.isOptStepAt]
  · simp [Event.isOptStepAt, h, Ne.symm h]

lemma epochStep_filter_writeAt (cfg : Config) (epoch : ℕ) (s : TrainState)
    (d : EpochData) (e2 : ℕ) :
    (((epochStep cfg epoch s d).events).filter
        (Event.isRecordWriteAt e2)).length =
      if e2 = epoch then 1 else 0 := by
  simp only [epochStep, List.filter_cons, List.filter_append]
  rw [filter_rewardCalls_none (Event.isRecordWriteAt e2) (fun _ _ _ => rfl)]
  by_cases h : e2 = epoch
  · subst h; simp [Event.isRecordWriteAt]
  · simp [Event.isRecordWriteAt, h, Ne.symm h]

lemma runEpochs_filter_count (cfg : Config) (p : ℕ → Event → Bool)
    (hb : ∀ epoch s d e2,
      (((epochStep cfg epoch s d).events).filter (p e2)).length =
        if e2 = epoch then 1 else 0)
    (ds : List EpochData) :
    ∀ (e : ℕ) (s : TrainState) (e2 : ℕ),
      (((runEpochs cfg e s ds).2).filter (p e2)).length =
        if e ≤ e2 ∧ e2 < e + ds.length then 1 else 0 := by
  induction ds with
  | nil =>
    intro e s e2
    simp only [runEpochs, List.filter_nil, List.length_nil, Nat.add_zero]
    rw [if_neg (by omega)]
  | cons d ds ih =>
    intro e s e2
    simp only [runEpochs, List.filter_append, List.length_append,
      List.length_cons]
    rw [hb, ih]
    split_ifs <;> omega

lemma epochStep_filter_opt (cfg : Config) (epoch : ℕ) (s : TrainState)
    (d : EpochData) :
    (((epochStep cfg epoch s d).events).filter Event.isOptStep).length = 1 := by
  simp only [epochStep, List.filter_cons, List.filter_append]
  rw [filter_rewardCalls_none Event.isOptStep (fun _ _ _ => rfl)]
  simp [Event.isOptStep]

lemma runEpochs_filter_opt_total (cfg : Config) (ds : List EpochData) :
    ∀ (e : ℕ) (s : TrainState),
      (((runEpochs cfg e s ds).2).filter Event.isOptStep).length = ds.length := by
  induction ds with
  | nil => intro e s; simp [runEpochs]
  | cons d ds ih =>
    intro e s
    simp only [runEpochs, List.filter_append, List.length_append,
      List.length_cons]
    rw [epochStep_filter_opt, ih]
    omega

lemma epochStep_call_mem (cfg : Config) (epoch : ℕ) (s : TrainState)
    (d : EpochData) (j : ℕ) (hj : j < d.episodes.length) :
    Event.computeRewardCall epoch j cfg.number_of_picks ∈
      (epochStep cfg epoch s d).events := by
  simp only [epochStep]
  apply List.mem_cons_of_mem
  apply List.mem_append_left
  exact List.mem_map.mpr ⟨j, List.mem_range.mpr hj, rfl⟩

lemma epochStep_probs_mem (cfg : Config) (epoch : ℕ) (s : TrainState)
    (d : EpochData) :
    Event.probsComputed epoch ∈ (epochStep cfg epoch s d).events := by
  simp only [epochStep]
  exact List.mem_cons_self _ _

lemma runEpochs_call_mem (cfg : Config) (ds : List EpochData) :
    ∀ (e : ℕ) (s : TrainState) (i j : ℕ) (hi : i < ds.length),
      j < (ds.get ⟨i, hi⟩).episodes.length →
      Event.computeRewardCall (e + i) j cfg.number_of_picks ∈
          (runEpochs cfg e s ds).2 ∧
        Event.probsComputed (e + i) ∈ (runEpochs cfg e s ds).2 := by
  induction ds with
  | nil => intro e s i j hi; exact absurd hi (by simp)
  | cons d ds ih =>
    intro e s i j hi hj
    cases i with
    | zero =>
      simp only [Nat.add_zero]
      constructor
      · exact List.mem_append_left _ (epochStep_call_mem cfg e s d j hj)
      · exact List.mem_append_left _ (epochStep_probs_mem cfg e s d)
    | succ i2 =>
      have hi2 : i2 < ds.length := by
        simpa [Nat.succ_lt_succ_iff] using hi
      have heq : e + (i2 + 1) = (e + 1) + i2 := by omega
      have hj2 : j < (ds.get ⟨i2, hi2⟩).episodes.length := by
        simpa using hj
      have := ih (e + 1) (epochStep cfg e s d).state i2 j hi2 hj2
      rw [heq]
      exact ⟨List.mem_append_right _ this.1, List.mem_append_right _ this.2⟩

lemma writeFile_lookup (fs : List (ℕ × List String)) (k : ℕ)
    (L : List String) : (writeFile fs k L).lookup k = some L := by
  simp [writeFile, List.lookup]

lemma epochStep_selectionDir (cfg : Config) (epoch : ℕ) (s : TrainState)
    (d : EpochData) :
    (epochStep cfg epoch s d).state.selectionDir =
      writeFile s.selectionDir cfg.start_idx
        ((epochStep cfg epoch s d).state.best_pi.map
          (fun idx => cfg.fpaths.getD (cfg.start_idx + idx) "")) := rfl

lemma epochStep_write_mem (cfg : Config) (epoch : ℕ) (s : TrainState)
    (d : EpochData) :
    Event.recordWrite epoch cfg.start_idx
        ((epochStep cfg epoch s d).state.best_pi.map
          (fun idx => cfg.fpaths.getD (cfg.start_idx + idx) "")) ∈
      (epochStep cfg epoch s d).events := by
  simp only [epochStep]
  apply List.mem_cons_of_mem
  apply List.mem_append_right
  simp

lemma opt_split_shape (a : Event) (l : List Event) (x y : Event)
    (ha : a.isOptStep = false) (hl : ∀ ev ∈ l, ev.isOptStep = false)
    (hy : y.isRewardCall = false) :
    ∃ pre post, (a :: (l ++ [x, y])) = pre ++ x :: post ∧
      (∀ ev ∈ pre, ev.isOptStep = false) ∧
      (∀ ev ∈ post, ev.isRewardCall = false) := by
  refine ⟨a :: l, [y], by simp, ?_, ?_⟩
  · intro ev h
    rcases List.mem_cons.mp h with rfl | h2
    · exact ha
    · exact hl ev h2
  · intro ev h
    rcases List.mem_singleton.mp h with rfl
    exact hy

lemma episodeBody_neg (b : PyF) (acc : EpAcc) (ep : Episode) (q : ℚ)
    (hq : q ≤ 0) (hr : ep.reward = PyF.fin q)
    (h0 : acc.best_reward = PyF.fin 0) :
    (episodeBody b acc ep).best_reward = PyF.fin 0 ∧
    (episodeBody b acc ep).best_pi = acc.best_pi := by
  have hgt : ep.reward.gt acc.best_reward = false := by
    rw [hr, h0]
    simpa [PyF.gt] using not_lt.mpr hq
  simp only [episodeBody]
  rw [hgt]
  simp [h0]

lemma foldl_episodeBody_neg (b : PyF) (eps : List Episode) :
    ∀ acc : EpAcc, acc.best_reward = PyF.fin 0 →
      (∀ ep ∈ eps, ∃ q : ℚ, q ≤ 0 ∧ ep.reward = PyF.fin q) →
      ((eps.foldl (episodeBody b) acc)).best_reward = PyF.fin 0 ∧
      ((eps.foldl (episodeBody b) acc)).best_pi = acc.best_pi := by
  induction eps with
  | nil => intro acc h0 _; exact ⟨h0, rfl⟩
  | cons e es ih =>
    intro acc h0 hall
    obtain ⟨q, hq, hr⟩ := hall e (List.mem_cons_self _ _)
    obtain ⟨hb, hp⟩ := episodeBody_neg b acc e q hq hr h0
    simp only [List.foldl_cons]
    obtain ⟨hb2, hp2⟩ := ih (episodeBody b acc e) hb
      (fun ep hep => hall ep (List.mem_cons_of_mem _ hep))
    exact ⟨hb2, hp2.trans hp⟩

lemma epochStep_write_unique (cfg : Config) (epoch : ℕ) (s : TrainState)
    (d : EpochData) (e2 k : ℕ) (lines : List String)
    (hm : Event.recordWrite e2 k lines ∈ (epochStep cfg epoch s d).events) :
    e2 = epoch ∧ k = cfg.start_idx ∧
      lines = (epochStep cfg epoch s d).state.best_pi.map
        (fun idx => cfg.fpaths.getD (cfg.start_idx + idx) "") := by
  simp only [epochStep] at hm
  rcases List.mem_cons.mp hm with h | hm2
  · cases h
  rcases List.mem_append.mp hm2 with h | hm3
  · rcases List.mem_map.mp h with ⟨j, _, hj⟩
    cases hj
  rcases List.mem_cons.mp hm3 with h | hm4
  · cases h
  have h := List.mem_singleton.mp hm4
  injection h with ha hb hc
  exact ⟨ha, hb, hc⟩

lemma epochStep_neg (cfg : Config) (epoch : ℕ) (s : TrainState)
    (d : EpochData) (h0 : s.best_reward = PyF.fin 0) (hpi : s.best_pi = [])
    (hall : ∀ ep ∈ d.episodes, ∃ q : ℚ, q ≤ 0 ∧ ep.reward = PyF.fin q) :
    (epochStep cfg epoch s d).state.best_reward = PyF.fin 0 ∧
    (epochStep cfg epoch s d).state.best_pi = [] ∧
    ∀ e2 k lines, Event.recordWrite e2 k lines ∈
      (epochStep cfg epoch s d).events → lines = [] := by
  obtain ⟨hb, hp⟩ := foldl_episodeBody_neg s.baseline d.episodes
    ⟨s.best_reward, s.best_pi,
      (PyF.fin cfg.beta).mul
        (((PyF.mean d.probs).sub (PyF.fin (1/2))).mul
         ((PyF.mean d.probs).sub (PyF.fin (1/2)))), []⟩ h0 hall
  have hpi2 : (epochStep cfg epoch s d).state.best_pi = [] := by
    simp only [epochStep]
    exact hp.trans hpi
  refine ⟨by simpa only [epochStep] using hb, hpi2, ?_⟩
  intro e2 k lines hm
  obtain ⟨-, -, hl⟩ := epochStep_write_unique cfg epoch s d e2 k lines hm
  rw [hl, hpi2]
  rfl

lemma runEpochs_neg (cfg : Config) (ds : List EpochData) :
    ∀ (e : ℕ) (s : TrainState), s.best_reward = PyF.fin 0 → s.best_pi = [] →
      (∀ d ∈ ds, ∀ ep ∈ d.episodes, ∃ q : ℚ, q ≤ 0 ∧ ep.reward = PyF.fin q) →
      (runEpochs cfg e s ds).1.best_reward = PyF.fin 0 ∧
      (runEpochs cfg e s ds).1.best_pi = [] ∧
      ∀ e2 k lines, Event.recordWrite e2 k lines ∈
        (runEpochs cfg e s ds).2 → lines = [] := by
  induction ds with
  | nil =>
    intro e s h0 hpi _
    refine ⟨h0, hpi, ?_⟩
    intro e2 k lines hm
    simp [runEpochs] at hm
  | cons d ds ih =>
    intro e s h0 hpi hall
    obtain ⟨hb, hp, hw⟩ := epochStep_neg cfg e s d h0 hpi
      (hall d (List.mem_cons_self _ _))
    obtain ⟨hb2, hp2, hw2⟩ := ih (e + 1) (epochStep cfg e s d).state hb hp
      (fun d2 hd2 => hall d2 (List.mem_cons_of_mem _ hd2))
    refine ⟨hb2, hp2, ?_⟩
    intro e2 k lines hm
    rcases List.mem_append.mp hm with h | h
    · exact hw e2 k lines h
    · exact hw2 e2 k lines h

/-- C1: for every epoch whose inputs are finite, the accumulated epoch cost
(the value handed to `cost.backward()`) equals the regularization term
`beta * (mean(probs) - 0.5)^2` minus the sum over the episodes of the epoch of
`log_probs.mean() * (reward - baseline)`, where `baseline` is the value held
at the start of the epoch. -/
theorem cdal_C1 (cfg : Config) (epoch : ℕ) (s : TrainState) (d : EpochData)
    (b : ℚ) (ps : List ℚ) (eps : List (ℚ × ℚ × List ℕ))
    (hb : s.baseline = PyF.fin b)
    (hp : d.probs = ps.map PyF.fin) (hps : ps ≠ [])
    (he : d.episodes = eps.map mkEp) :
    (epochStep cfg epoch s d).cost =
      PyF.fin (cfg.beta * (ps.sum / ps.length - 1/2)^2 -
        (eps.map (fun x => x.1 * (x.2.1 - b))).sum) := by
  have hmean : PyF.mean d.probs = PyF.fin (ps.sum / ps.length) := by
    rw [hp]
    exact pyf_mean_map_fin ps hps
  have hacc : ((PyF.fin cfg.beta).mul
      (((PyF.mean d.probs).sub (PyF.fin (1/2))).mul
       ((PyF.mean d.probs).sub (PyF.fin (1/2))))) =
      PyF.fin (cfg.beta * (ps.sum / ps.length - 1/2)^2) := by
    rw [hmean]
    simp only [PyF.sub, PyF.mul]
    congr 1
    ring
  simp only [epochStep]
  rw [he, hb]
  exact foldl_episodeBody_cost b eps _ _ hacc

/-- C1 witness: the epoch-cost formula evaluated on a concrete epoch with
two finite episodes and baseline 1/4. -/
theorem cdal_C1_witness :
    (epochStep cfg0 0 st1 w1d).cost =
      PyF.fin (cfg0.beta * (w1ps.sum / w1ps.length - 1/2)^2 -
        (w1eps.map (fun x => x.1 * (x.2.1 - (1/4 : ℚ)))).sum) :=
  cdal_C1 cfg0 0 st1 w1d (1/4) w1ps w1eps rfl rfl (by decide) rfl

/-- C2: starting from baseline 0, a run that executes (no resume) leaves the
baseline equal to the fold of `b ↦ 0.9*b + 0.1*r` over the per-epoch mean
episode rewards `r_1..r_n`, i.e. the exponential moving average with decay
0.9 from 0, updated exactly once per epoch and never reset mid-run. -/
theorem cdal_C2 (cfg : Config) (data : List EpochData)
    (h : cfg.resume = "") :
    ∃ out, mainRun cfg data = Except.ok out ∧
      out.1.baseline = ema (data.map epochMeanReward) := by
  refine ⟨runEpochs cfg 0 (setupState cfg) data, ?_, ?_⟩
  · simp [mainRun, startEpochVar, h]
  · rw [runEpochs_baseline]
    rfl

/-- C2 witness: the exponential-moving-average characterization on a
concrete one-epoch run. -/
theorem cdal_C2_witness :
    ∃ out, mainRun cfg0 c7data = Except.ok out ∧
      out.1.baseline = ema (c7data.map epochMeanReward) :=
  cdal_C2 cfg0 c7data rfl

/-- C3: the best pair is overwritten only on strict improvement — an
episode whose reward equals (or more generally does not strictly exceed)
the current best leaves both stored components unchanged — and the stored
best reward is monotonically non-decreasing over the whole run. -/
theorem cdal_C3 :
    (∀ (b : PyF) (acc : EpAcc) (ep : Episode),
      ep.reward = acc.best_reward →
      (episodeBody b acc ep).best_pi = acc.best_pi ∧
      (episodeBody b acc ep).best_reward = acc.best_reward) ∧
    (∀ (b : PyF) (acc : EpAcc) (ep : Episode),
      ep.reward.gt acc.best_reward = false →
      (episodeBody b acc ep).best_pi = acc.best_pi ∧
      (episodeBody b acc ep).best_reward = acc.best_reward) ∧
    (∀ (cfg : Config) (e : ℕ) (s : TrainState) (ds : List EpochData),
      PyF.wle s.best_reward (runEpochs cfg e s ds).1.best_reward) := by
  have hkeep : ∀ (b : PyF) (acc : EpAcc) (ep : Episode),
      ep.reward.gt acc.best_reward = false →
      (episodeBody b acc ep).best_pi = acc.best_pi ∧
      (episodeBody b acc ep).best_reward = acc.best_reward := by
    intro b acc ep hgt
    obtain ⟨h1, h2⟩ := episodeBody_best b acc ep
    rw [h1, h2, hgt]
    simp
  refine ⟨?_, hkeep, ?_⟩
  · intro b acc ep h
    apply hkeep
    rw [h]
    cases acc.best_reward <;> simp [PyF.gt]
  · intro cfg e s ds
    exact runEpochs_best_wle cfg ds e s

/-- C3 witness: an episode tying the current best (both 1/2) leaves the
stored pair unchanged, and the best reward of a concrete run is
non-decreasing. -/
theorem cdal_C3_witness :
    ((episodeBody (PyF.fin 0) acc3 epEq).best_pi = acc3.best_pi ∧
     (episodeBody (PyF.fin 0) acc3 epEq).best_reward = acc3.best_reward) ∧
    PyF.wle st1.best_reward (runEpochs cfg0 0 st1 c7data).1.best_reward :=
  ⟨cdal_C3.1 (PyF.fin 0) acc3 epEq rfl, cdal_C3.2.2 cfg0 0 st1 c7data⟩

/-- C4: every epoch of a run contains exactly one optimizer-step event
(epochs outside the executed range contain none); within an epoch the
optimizer step occurs after all reward computations of the epoch; and the
parameters after an epoch are one application of the optimizer step to the
accumulated epoch cost. -/
theorem cdal_C4 :
    (∀ (cfg : Config) (e : ℕ) (s : TrainState) (ds : List EpochData)
      (e2 : ℕ),
      (((runEpochs cfg e s ds).2).filter (Event.isOptStepAt e2)).length =
        if e ≤ e2 ∧ e2 < e + ds.length then 1 else 0) ∧
    (∀ (cfg : Config) (epoch : ℕ) (s : TrainState) (d : EpochData),
      ∃ pre post, (epochStep cfg epoch s d).events =
          pre ++ Event.optStep epoch :: post ∧
        (∀ ev ∈ pre, ev.isOptStep = false) ∧
        (∀ ev ∈ post, ev.isRewardCall = false)) ∧
    (∀ (cfg : Config) (epoch : ℕ) (s : TrainState) (d : EpochData),
      (epochStep cfg epoch s d).state.params =
        cfg.optimStep s.params (epochStep cfg epoch s d).cost) := by
  refine ⟨?_, ?_, ?_⟩
  · intro cfg e s ds e2
    exact runEpochs_filter_count cfg Event.isOptStepAt
      (fun epoch s2 d e3 => epochStep_filter_optAt cfg epoch s2 d e3)
      ds e s e2
  · intro cfg epoch s d
    simp only [epochStep]
    exact opt_split_shape _ _ _ _ rfl
      (fun ev h => by rcases List.mem_map.mp h with ⟨j, _, rfl⟩; rfl) rfl
  · intro cfg epoch s d
    rfl

/-- C4 witness: exactly one optimizer step in epoch 0 of a concrete
one-epoch run. -/
theorem cdal_C4_witness :
    (((runEpochs cfg0 0 st1 c7data).2).filter (Event.isOptStepAt 0)).length =
      if 0 ≤ 0 ∧ 0 < 0 + c7data.length then 1 else 0 :=
  cdal_C4.1 cfg0 0 st1 c7data 0

/-- C5: every executed epoch emits exactly one selection-record write
(epochs outside the range none); the write of an epoch carries the run key
`start_idx` and one identifier line per current best pick index; any
record-write event of an epoch has exactly that key and content; and after
the epoch the record stored under the run key is exactly those lines,
overwriting whatever was there. -/
theorem cdal_C5 :
    (∀ (cfg : Config) (e : ℕ) (s : TrainState) (ds : List EpochData)
      (e2 : ℕ),
      (((runEpochs cfg e s ds).2).filter (Event.isRecordWriteAt e2)).length =
        if e ≤ e2 ∧ e2 < e + ds.length then 1 else 0) ∧
    (∀ (cfg : Config) (epoch : ℕ) (s : TrainState) (d : EpochData),
      Event.recordWrite epoch cfg.start_idx
          ((epochStep cfg epoch s d).state.best_pi.map
            (fun idx => cfg.fpaths.getD (cfg.start_idx + idx) "")) ∈
        (epochStep cfg epoch s d).events) ∧
    (∀ (cfg : Config) (epoch : ℕ) (s : TrainState) (d : EpochData)
      (e2 k : ℕ) (lines : List String),
      Event.recordWrite e2 k lines ∈ (epochStep cfg epoch s d).events →
        e2 = epoch ∧ k = cfg.start_idx ∧
        lines = (epochStep cfg epoch s d).state.best_pi.map
          (fun idx => cfg.fpaths.getD (cfg.start_idx + idx) "")) ∧
    (∀ (cfg : Config) (epoch : ℕ) (s : TrainState) (d : EpochData),
      ((epochStep cfg epoch s d).state.selectionDir).lookup cfg.start_idx =
        some ((epochStep cfg epoch s d).state.best_pi.map
          (fun idx => cfg.fpaths.getD (cfg.start_idx + idx) ""))) := by
  refine ⟨?_, ?_, ?_, ?_⟩
  · intro cfg e s ds e2
    exact runEpochs_filter_count cfg Event.isRecordWriteAt
      (fun epoch s2 d e3 => epochStep_filter_writeAt cfg epoch s2 d e3)
      ds e s e2
  · intro cfg epoch s d
    exact epochStep_write_mem cfg epoch s d
  · intro cfg epoch s d e2 k lines hm
    exact epochStep_write_unique cfg epoch s d e2 k lines hm
  · intro cfg epoch s d
    rw [epochStep_selectionDir]
    exact writeFile_lookup _ _ _

/-- C5 witness: the unique record-write event of a concrete epoch carries
the run key 0 and the identifier lines of the best picks. -/
theorem cdal_C5_witness :
    (0 : ℕ) = 0 ∧ (0 : ℕ) = cfg0.start_idx ∧
      (["f0", "f2"] : List String) =
        (epochStep cfg0 0 st1 d1).state.best_pi.map
          (fun idx => cfg0.fpaths.getD (cfg0.start_idx + idx) "") :=
  cdal_C5.2.2.1 cfg0 0 st1 d1 0 0 ["f0", "f2"] (by
    have hpi : (epochStep cfg0 0 st1 d1).state.best_pi = [0, 2] := by
      simp only [epochStep, d1, ep1, st1, List.foldl_cons, List.foldl_nil,
        episodeBody, PyF.gt]
      norm_num
    have hmem := epochStep_write_mem cfg0 0 st1 d1
    rw [hpi] at hmem
    simpa [cfg0] using hmem)

/-- C6 is refuted: a run whose first epoch produces a non-finite (NaN)
reward does not abort — it completes both epochs, in particular performing
the optimizer step of the second epoch. -/
theorem cdal_C6_counterexample :
    ((c6data.headD d1).episodes.headD ep1).reward.isFinite = false ∧
    (mainRun cfg0 c6data).isOk = true ∧
    ((runEvents cfg0 c6data).filter Event.isOptStep).length = 2 ∧
    Event.optStep 1 ∈ runEvents cfg0 c6data := by decide

/-- C6 (amended): `main.py` performs no finiteness check anywhere in the
epoch loop, so a run with empty resume path never aborts — for every input,
including runs in which some episode reward or log-probability is
non-finite, the loop completes and performs the optimizer step of every epoch. -/
theorem cdal_C6_amended (cfg : Config) (data : List EpochData)
    (h : cfg.resume = "") :
    ∃ out, mainRun cfg data = Except.ok out ∧
      ((out.2.filter Event.isOptStep)).length = data.length := by
  refine ⟨runEpochs cfg 0 (setupState cfg) data, ?_, ?_⟩
  · simp [mainRun, startEpochVar, h]
  · exact runEpochs_filter_opt_total cfg data 0 (setupState cfg)

/-- C6 witness: the amended claim applied to the concrete run containing a
NaN reward. -/
theorem cdal_C6_witness :
    ∃ out, mainRun cfg0 c6data = Except.ok out ∧
      ((out.2.filter Event.isOptStep)).length = c6data.length :=
  cdal_C6_amended cfg0 c6data rfl

/-- C7 is refuted: with pick count 0 the run does not fail before training —
it completes, its first event is the probability computation of the first epoch,
and `compute_reward` is reached with the out-of-range pick count. -/
theorem cdal_C7_counterexample :
    cfg7.number_of_picks ≤ 0 ∧
    (mainRun cfg7 c7data).isOk = true ∧
    Event.computeRewardCall 0 0 cfg7.number_of_picks ∈
      runEvents cfg7 c7data ∧
    (runEvents cfg7 c7data).headD (Event.optStep 99) =
      Event.probsComputed 0 := by decide

/-- C7 (amended): `main.py` never validates the pick count; for every
configuration (any `number_of_picks`, including values that are ≤ 0 or
exceed the sequence length) a no-resume run proceeds into training: each
per-epoch probabilities are computed and `compute_reward` is invoked with the
configured pick count for every episode; any rejection of an invalid count
could only happen inside `compute_reward` (outside `src/`), not before
training starts. -/
theorem cdal_C7_amended (cfg : Config) (data : List EpochData)
    (h : cfg.resume = "") (i j : ℕ) (hi : i < data.length)
    (hj : j < (data.get ⟨i, hi⟩).episodes.length) :
    Event.computeRewardCall i j cfg.number_of_picks ∈ runEvents cfg data ∧
    Event.probsComputed i ∈ runEvents cfg data ∧
    (mainRun cfg data).isOk = true := by
  have hre : runEvents cfg data =
      (runEpochs cfg 0 (setupState cfg) data).2 := by
    simp [runEvents, mainRun, startEpochVar, h]
  have hm := runEpochs_call_mem cfg data 0 (setupState cfg) i j hi hj
  rw [hre]
  refine ⟨by simpa using hm.1, by simpa using hm.2, ?_⟩
  have hok : mainRun cfg data =
      Except.ok (runEpochs cfg 0 (setupState cfg) data) := by
    simp [mainRun, startEpochVar, h]
  rw [hok]
  rfl

/-- C7 witness: the amended claim at the concrete out-of-range
configuration (pick count 0), epoch 0, episode 0. -/
theorem cdal_C7_witness :
    Event.computeRewardCall 0 0 cfg7.number_of_picks ∈
      runEvents cfg7 c7data ∧
    Event.probsComputed 0 ∈ runEvents cfg7 c7data ∧
    (mainRun cfg7 c7data).isOk = true :=
  cdal_C7_amended cfg7 c7data rfl 0 0 (by decide) (by decide)

/-- C8: when a resume path is supplied, the pre-loop state takes only the
policy parameters from the checkpoint, while the baseline is initialized to
zero and the best selection state to (0, empty); the selection directory is
cleared. -/
theorem cdal_C8 (cfg : Config) (h : cfg.resume ≠ "") :
    (setupState cfg).params = cfg.checkpointParams ∧
    (setupState cfg).baseline = PyF.fin 0 ∧
    (setupState cfg).best_reward = PyF.fin 0 ∧
    (setupState cfg).best_pi = [] ∧
    (setupState cfg).selectionDir = [] := by
  simp [setupState, h]

/-- C8 witness: the resume configuration `cfgR`. -/
theorem cdal_C8_witness :
    (setupState cfgR).params = cfgR.checkpointParams ∧
    (setupState cfgR).baseline = PyF.fin 0 ∧
    (setupState cfgR).best_reward = PyF.fin 0 ∧
    (setupState cfgR).best_pi = [] ∧
    (setupState cfgR).selectionDir = [] :=
  cdal_C8 cfgR (by decide)

/-- C9: with a non-empty resume path, `start_epoch` is unbound, so
evaluating `range(start_epoch, args.max_epoch)` aborts the run before any
epoch executes: the run is an UnboundLocalError, no events are emitted, and
in particular no optimizer step is ever reached. -/
theorem cdal_C9 (cfg : Config) (data : List EpochData)
    (h : cfg.resume ≠ "") :
    mainRun cfg data = Except.error
      "UnboundLocalError: start_epoch referenced before assignment" ∧
    runEvents cfg data = [] ∧
    ((runEvents cfg data).filter Event.isOptStep).length = 0 := by
  have h1 : startEpochVar cfg = none := by simp [startEpochVar, h]
  refine ⟨?_, ?_, ?_⟩
  · simp [mainRun, h1]
  · simp [runEvents, mainRun, h1]
  · simp [runEvents, mainRun, h1]

/-- C9 witness: the resume configuration with a one-epoch data list. -/
theorem cdal_C9_witness :
    mainRun cfgR c7data = Except.error
      "UnboundLocalError: start_epoch referenced before assignment" ∧
    runEvents cfgR c7data = [] ∧
    ((runEvents cfgR c7data).filter Event.isOptStep).length = 0 :=
  cdal_C9 cfgR c7data (by decide)

/-- C10: if every episode reward of the run is at most zero, the best
reward stays 0 and the best pick list stays empty; the run still completes
without error, every epoch still writes its selection record exactly once,
and every record written contains zero identifier lines. -/
theorem cdal_C10 (cfg : Config) (data : List EpochData)
    (h : cfg.resume = "")
    (hneg : ∀ d ∈ data, ∀ ep ∈ d.episodes,
      ∃ q : ℚ, q ≤ 0 ∧ ep.reward = PyF.fin q) :
    ∃ out, mainRun cfg data = Except.ok out ∧
      out.1.best_reward = PyF.fin 0 ∧
      out.1.best_pi = [] ∧
      (∀ e2 k lines, Event.recordWrite e2 k lines ∈ out.2 → lines = []) ∧
      (∀ e2 : ℕ, e2 < data.length →
        ((out.2.filter (Event.isRecordWriteAt e2))).length = 1) := by
  refine ⟨runEpochs cfg 0 (setupState cfg) data, ?_, ?_⟩
  · simp [mainRun, startEpochVar, h]
  obtain ⟨h1, h2, h3⟩ := runEpochs_neg cfg data 0 (setupState cfg) rfl rfl hneg
  refine ⟨h1, h2, h3, ?_⟩
  intro e2 he2
  rw [runEpochs_filter_count cfg Event.isRecordWriteAt
    (fun epoch s2 d e3 => epochStep_filter_writeAt cfg epoch s2 d e3)
    data 0 (setupState cfg) e2]
  rw [if_pos ⟨Nat.zero_le _, by omega⟩]

/-- C10 witness: a concrete run whose episode rewards are -1/2 and 0. -/
theorem cdal_C10_witness :
    ∃ out, mainRun cfg0 c10data = Except.ok out ∧
      out.1.best_reward = PyF.fin 0 ∧
      out.1.best_pi = [] ∧
      (∀ e2 k lines, Event.recordWrite e2 k lines ∈ out.2 → lines = []) ∧
      (∀ e2 : ℕ, e2 < c10data.length →
        ((out.2.filter (Event.isRecordWriteAt e2))).length = 1) :=
  cdal_C10 cfg0 c10data rfl (by
    intro d hd ep hep
    simp only [c10data, List.mem_singleton] at hd
    subst hd
    simp only [List.mem_cons, List.mem_singleton, List.not_mem_nil,
      or_false] at hep
    rcases hep with rfl | rfl
    · exact ⟨-1/2, by norm_num, rfl⟩
    · exact ⟨0, le_refl 0, rfl⟩)

end CDAL
